import Mathlib

/-!
Shallow embedding of the bytecode virtual machine in `5_.py`
(classes `Function`, `ImportFunction`, `Machine`, exceptions `Return`
and `Break`), together with proofs about its control flow, call
protocol and memory accessors.

Modelling conventions:
* Python's dynamically typed stack values are a closed tagged union
  `Value` of numbers and booleans.  Numeric payloads are integers;
  where the source stores a number into the byte buffer through
  `struct.pack("<d", v)` the model identifies the number with its
  64-bit little-endian encoding, so the IEEE-754 bijection between
  floats and 8-byte strings is abstracted to the identity on bit
  patterns.
* The `Break` and `Return` exceptions of the source are modelled as
  explicit outcomes (`Outcome.brk`, `Outcome.ret`) threaded through
  the interpreter; fatal Python exceptions (IndexError, KeyError,
  struct.error) become `Outcome.error`.
* The interpreter is total via a fuel parameter; exhausting fuel
  yields the artificial outcome `Outcome.timeout`, which corresponds
  to no behaviour of the source and appears in no claim.
* Python `bytearray` slicing (`m[a:b]`, `m[a:b] = data`), including
  clamping and negative-index wrap-around, is modelled exactly by
  `pyIndex`, `pySlice` and `pySetSlice`; Python list indexing with
  negative indices by `pyGet`.
* `St.trace` records each invocation of an imported host callable
  (its argument list, most recent first).  It is observational
  instrumentation used to state the call protocol; no instruction
  reads it.
-/

/-- Stack and local values: Python numbers (here: integers, see the
module comment) and booleans. -/
inductive Value where
  | num (x : Int)
  | bool (b : Bool)
  deriving DecidableEq, Repr

/-- Python's implicit numeric coercion: `bool` is an `int` subclass,
so `True` counts as 1 and `False` as 0 in arithmetic and indexing. -/
def toNum : Value → Int
  | .num x => x
  | .bool b => if b then 1 else 0

/-- Python truthiness as used by `if self.pop():` in the `br_if`
opcode: a number is true iff nonzero, a boolean is itself. -/
def truthy : Value → Bool
  | .num x => x != 0
  | .bool b => b

/-- Bytecode instructions: an opcode plus its fixed operands, with
`block` and `loop` carrying nested instruction sequences. -/
inductive Instr where
  | const (v : Value)
  | add
  | sub
  | mul
  | le
  | ge
  | load
  | store
  | localGet (i : Nat)
  | localSet (i : Nat)
  | call (f : Int)
  | br (level : Int)
  | brIf (level : Int)
  | block (body : List Instr)
  | loop (body : List Instr)
  | ret

/-- Function-table entries: `defined` models class `Function`
(nparams, returns, code) and `imported` models class `ImportFunction`
(nparams, returns, a host callable receiving the arguments in call
order). -/
inductive Func where
  | defined (nparams : Nat) (returns : Bool) (code : List Instr)
  | imported (nparams : Nat) (returns : Bool) (host : List Value → Value)

/-- Parameter count attribute `func.nparams` of the source. -/
def Func.nparams : Func → Nat
  | .defined n _ _ => n
  | .imported n _ _ => n

/-- Returns flag attribute `func.returns` of the source. -/
def Func.returnsFlag : Func → Bool
  | .defined _ r _ => r
  | .imported _ r _ => r

/-- Control outcome of running an instruction sequence: normal
completion, a propagating `Break(level)` exception, a propagating
`Return` exception, a fatal Python exception, or fuel exhaustion
(model artifact). -/
inductive Outcome where
  | normal
  | brk (level : Int)
  | ret
  | error (msg : String)
  | timeout
  deriving DecidableEq, Repr

/-- Machine state threaded through the interpreter: the operand stack
`self.items` (head is the top), the byte buffer `self.memory`, the
current activation's `locals` dict (association list), and the
instrumentation trace of host-callable invocations. -/
structure St where
  stack : List Value
  mem : List Nat
  locs : List (Nat × Value)
  trace : List (List Value)
  deriving DecidableEq, Repr

/-- Method `push` of the source: append to the operand stack. -/
def Machine.push (st : St) (v : Value) : St :=
  { st with stack := v :: st.stack }

/-- Pops `n` values off the stack, as `[self.pop() for _ in range(n)]`
does, first-popped first; `none` with the partially popped state on
underflow (IndexError). -/
def popN : Nat → St → Option (List Value) × St
  | 0, st => (some [], st)
  | n + 1, st =>
    match st.stack with
    | [] => (none, st)
    | v :: s =>
      match popN n { st with stack := s } with
      | (some vs, st') => (some (v :: vs), st')
      | (none, st') => (none, st')

/-- Python dict update `locals[i] = v` on an association list:
replace the binding of `i` if present, else append it. -/
def lset : List (Nat × Value) → Nat → Value → List (Nat × Value)
  | [], i, v => [(i, v)]
  | (j, w) :: t, i, v =>
    if j = i then (i, v) :: t else (j, w) :: lset t i v

/-- Helper for `mkLocals`: enumeration starting at key `k`. -/
def mkLocalsFrom (k : Nat) : List Value → List (Nat × Value)
  | [] => []
  | v :: vs => (k, v) :: mkLocalsFrom (k + 1) vs

/-- Fresh locals `dict(enumerate(args))` of the call protocol:
argument `i` is bound to local slot `i`. -/
def mkLocals (args : List Value) : List (Nat × Value) :=
  mkLocalsFrom 0 args

/-- Little-endian 8-byte encoding written by `struct.pack("<d", v)`,
with the number identified with its 64-bit pattern (module comment). -/
def packLE (v : Nat) : List Nat :=
  [v % 256, v / 256 % 256, v / 256 ^ 2 % 256, v / 256 ^ 3 % 256,
   v / 256 ^ 4 % 256, v / 256 ^ 5 % 256, v / 256 ^ 6 % 256,
   v / 256 ^ 7 % 256]

/-- Little-endian decoding performed by `struct.unpack("<d", bs)`. -/
def unpackLE (bs : List Nat) : Nat :=
  bs.foldr (fun b acc => b + 256 * acc) 0

/-- Effective index of `i` into a sequence of length `n` under Python
slice semantics: negative indices count from the end, and both ends
clamp into `[0, n]`. -/
def pyIndex (n : Nat) (i : Int) : Nat :=
  if i < 0 then (i + n).toNat else min i.toNat n

/-- Python slice read `l[a:b]` (step 1). -/
def pySlice (l : List α) (a b : Int) : List α :=
  let s := pyIndex l.length a
  let e := pyIndex l.length b
  (l.drop s).take (e - s)

/-- Python slice assignment `l[a:b] = data` (step 1) on a bytearray:
replaces the addressed elements with `data`, resizing as needed; it
never fails. -/
def pySetSlice (l : List α) (a b : Int) (data : List α) : List α :=
  let s := pyIndex l.length a
  let e := max s (pyIndex l.length b)
  l.take s ++ data ++ l.drop e

/-- Method `load` of class `Machine`:
`struct.unpack("<d", self.memory[addr : addr + 8])[0]`.
`none` models the struct.error raised when the (clamped) slice holds
fewer than 8 bytes. -/
def Machine.load (mem : List Nat) (addr : Int) : Option Nat :=
  let bs := pySlice mem addr (addr + 8)
  if bs.length = 8 then some (unpackLE bs) else none

/-- Method `store` of class `Machine`:
`self.memory[addr : addr + 8] = struct.pack("<d", val)`.
Like the Python slice assignment it is total. -/
def Machine.store (mem : List Nat) (addr : Int) (v : Nat) : List Nat :=
  pySetSlice mem addr (addr + 8) (packLE v)

/-- Python list indexing `l[i]` as used by `self.functions[args[0]]`:
negative indices count from the end; `none` models IndexError. -/
def pyGet (l : List α) (i : Int) : Option α :=
  if 0 ≤ i then l[i.toNat]?
  else if -(l.length : Int) ≤ i then l[(i + l.length).toNat]? else none

/-- Method `execute` of class `Machine` (lines 51-118 of the source),
with the body of method `call` (lines 36-49) inlined at the `call`
opcode.  The for-loop over the sequence becomes recursion on the list;
each opcode's normal exit continues with `rest`, a raised exception
becomes a non-`normal` outcome that skips `rest`.  `block` catches
`Break`, decrementing and re-raising levels above 0; `loop` does the
same inside `while True:`, so a swallowed `Break(0)` re-enters the
loop while normal completion of the body executes the `break` and
leaves it.  The call protocol builds fresh locals from the reversed
popped arguments, absorbs one `Return`, pops the result iff the
callee returns and pushes it back; the caller's locals are restored
afterwards (the callee's dict is separate in the source). -/
def Machine.execute : Nat → List Func → List Instr → St → Outcome × St
  | 0, _, _, st => (.timeout, st)
  | _ + 1, _, [], st => (.normal, st)
  | f + 1, fns, ins :: rest, st =>
    match ins with
    | .const v => Machine.execute f fns rest (Machine.push st v)
    | .add =>
      match st.stack with
      | right :: left :: s =>
        Machine.execute f fns rest
          { st with stack := .num (toNum left + toNum right) :: s }
      | _ => (.error ("pop from empty list"), { st with stack := [] })
    | .sub =>
      match st.stack with
      | right :: left :: s =>
        Machine.execute f fns rest
          { st with stack := .num (toNum left - toNum right) :: s }
      | _ => (.error ("pop from empty list"), { st with stack := [] })
    | .mul =>
      match st.stack with
      | right :: left :: s =>
        Machine.execute f fns rest
          { st with stack := .num (toNum left * toNum right) :: s }
      | _ => (.error ("pop from empty list"), { st with stack := [] })
    | .le =>
      match st.stack with
      | right :: left :: s =>
        Machine.execute f fns rest
          { st with stack := .bool (decide (toNum left ≤ toNum right)) :: s }
      | _ => (.error ("pop from empty list"), { st with stack := [] })
    | .ge =>
      match st.stack with
      | right :: left :: s =>
        Machine.execute f fns rest
          { st with stack := .bool (decide (toNum right ≤ toNum left)) :: s }
      | _ => (.error ("pop from empty list"), { st with stack := [] })
    | .load =>
      match st.stack with
      | a :: s =>
        match Machine.load st.mem (toNum a) with
        | some bits =>
          Machine.execute f fns rest { st with stack := .num bits :: s }
        | none => (.error ("struct.error"), { st with stack := s })
      | [] => (.error ("pop from empty list"), st)
    | .store =>
      match st.stack with
      | var :: a :: s =>
        Machine.execute f fns rest
          { st with
              stack := s
              mem := Machine.store st.mem (toNum a)
                       ((toNum var % (2 : Int) ^ 64).toNat) }
      | _ => (.error ("pop from empty list"), { st with stack := [] })
    | .localGet i =>
      match List.lookup i st.locs with
      | some v => Machine.execute f fns rest (Machine.push st v)
      | none => (.error ("KeyError"), st)
    | .localSet i =>
      match st.stack with
      | v :: s =>
        Machine.execute f fns rest
          { st with stack := s, locs := lset st.locs i v }
      | [] => (.error ("pop from empty list"), st)
    | .call fi =>
      match pyGet fns fi with
      | none => (.error ("list index out of range"), st)
      | some fn =>
        match popN fn.nparams st with
        | (none, st') => (.error ("pop from empty list"), st')
        | (some popped, st') =>
          match fn with
          | .defined _ rets code =>
            match Machine.execute f fns code
                    { st' with locs := mkLocals popped.reverse } with
            | (.normal, st₂) | (.ret, st₂) =>
              if rets then
                match st₂.stack with
                | _ :: _ =>
                  Machine.execute f fns rest { st₂ with locs := st.locs }
                | [] =>
                  (.error ("pop from empty list"), { st₂ with locs := st.locs })
              else Machine.execute f fns rest { st₂ with locs := st.locs }
            | (.brk l, st₂) => (.brk l, { st₂ with locs := st.locs })
            | (.error m, st₂) => (.error m, { st₂ with locs := st.locs })
            | (.timeout, st₂) => (.timeout, st₂)
          | .imported _ rets host =>
            let st₂ := { st' with trace := popped.reverse :: st'.trace }
            if rets then
              Machine.execute f fns rest (Machine.push st₂ (host popped.reverse))
            else Machine.execute f fns rest st₂
    | .br l => (.brk l, st)
    | .brIf l =>
      match st.stack with
      | c :: s =>
        if truthy c then (.brk l, { st with stack := s })
        else Machine.execute f fns rest { st with stack := s }
      | [] => (.error ("pop from empty list"), st)
    | .block body =>
      match Machine.execute f fns body st with
      | (.normal, st') => Machine.execute f fns rest st'
      | (.brk l, st') =>
        if 0 < l then (.brk (l - 1), st')
        else Machine.execute f fns rest st'
      | r => r
    | .loop body =>
      match Machine.execute f fns body st with
      | (.normal, st') => Machine.execute f fns rest st'
      | (.brk l, st') =>
        if 0 < l then (.brk (l - 1), st')
        else Machine.execute f fns (.loop body :: rest) st'
      | r => r
    | .ret => (.ret, st)

/-- Method `call` of class `Machine` (lines 36-49) as a stand-alone
function: fresh locals from the arguments, one `Return` absorbed for
a defined callee, the result popped iff the callee returns; an
imported callee's host is invoked once with the arguments in order.
The middle component is the Python return value of the method.
`Machine.execute` inlines exactly this protocol at its `call` case. -/
def Machine.call (f : Nat) (fns : List Func) (fn : Func) (args : List Value)
    (st : St) : Outcome × Option Value × St :=
  match fn with
  | .defined _ rets code =>
    match Machine.execute f fns code { st with locs := mkLocals args } with
    | (.normal, st₂) | (.ret, st₂) =>
      if rets then
        match st₂.stack with
        | v :: s => (.normal, some v, { st₂ with stack := s, locs := st.locs })
        | [] => (.error ("pop from empty list"), none, { st₂ with locs := st.locs })
      else (.normal, none, { st₂ with locs := st.locs })
    | (.brk l, st₂) => (.brk l, none, { st₂ with locs := st.locs })
    | (.error m, st₂) => (.error m, none, { st₂ with locs := st.locs })
    | (.timeout, st₂) => (.timeout, none, st₂)
  | .imported _ _ host =>
    (.normal, some (host args), { st with trace := args :: st.trace })

/-- Nesting a code sequence inside a tower of `block` (true) and
`loop` (false) wrappers, innermost last; used to quantify over every
nesting depth of structured control around a sequence. -/
def wrap : List Bool → List Instr → List Instr
  | [], c => c
  | true :: w, c => [.block (wrap w c)]
  | false :: w, c => [.loop (wrap w c)]

/-- Empty machine state used by concrete scenarios. -/
def st0 : St := ⟨[], [], [], []⟩

/-- Popping `popped.length` values from a stack that starts with
`popped` yields exactly `popped` (first-popped first) and leaves the
remainder `s`. -/
theorem popN_append (popped s : List Value) (st : St)
    (h : st.stack = popped ++ s) :
    popN popped.length st = (some popped, { st with stack := s }) := by
  induction popped generalizing st with
  | nil =>
    simp only [List.length_nil, popN]
    simp only [List.nil_append] at h
    cases st
    simp_all
  | cons v vs ih =>
    simp only [List.length_cons, popN, h, List.cons_append]
    rw [ih { st with stack := vs ++ s } rfl]

/-- Looking up key `j` in an enumeration starting at `k`. -/
theorem lookup_mkLocalsFrom (l : List Value) (k j : Nat) :
    List.lookup j (mkLocalsFrom k l) = if k ≤ j then l[j - k]? else none := by
  induction l generalizing k with
  | nil => simp [mkLocalsFrom]
  | cons v vs ih =>
    simp only [mkLocalsFrom, List.lookup]
    rcases eq_or_ne j k with h | h
    · simp [h]
    · have hb : (j == k) = false := beq_false_of_ne h
      rw [hb]
      simp only [cond_false, ih (k + 1)]
      rcases Nat.lt_or_ge j k with hlt | hge
      · rw [if_neg (by omega), if_neg (by omega)]
      · have hj : k + 1 ≤ j := by omega
        rw [if_pos hj, if_pos (by omega)]
        have hd : j - k = (j - (k + 1)) + 1 := by omega
        rw [hd, List.getElem?_cons_succ]

/-- The fresh locals built by the call protocol bind argument `i` to
local slot `i`. -/
theorem lookup_mkLocals (args : List Value) (i : Nat) :
    List.lookup i (mkLocals args) = args[i]? := by
  simp [mkLocals, lookup_mkLocalsFrom]

/-- Decoding inverts encoding on 64-bit patterns: the byte-level
content of the round-trip property. -/
theorem unpackLE_packLE (v : Nat) (hv : v < 2 ^ 64) :
    unpackLE (packLE v) = v := by
  have hv' : v < 18446744073709551616 := by norm_num at hv; exact hv
  simp only [unpackLE, packLE, List.foldr]
  omega

/-- C1 (counterexample): the loop semantics claimed by the spec fails
on the code.  First conjunct: running `loop [br_if 0]` on the stack
`[1, 0]` consumes both values and completes normally — the `Break(0)`
raised by the first iteration was swallowed and the loop re-entered
(the claim says a `br 0` terminates the loop with `[0]` still on the
stack), and the second iteration's normal completion exited the loop.
Second conjunct: `loop []` completes normally at once — the loop
exits by falling off the end of its body, which the claim says never
happens. -/
theorem C1_counterexample :
    Machine.execute 6 [] [.loop [.brIf 0]]
        { st0 with stack := [.num 1, .num 0] } =
      (.normal, { st0 with stack := [] })
    ∧ Machine.execute 3 [] [.loop []] st0 = (.normal, st0) :=
  ⟨rfl, rfl⟩

/-- C1 (amended): executing `loop body` first runs `body`; if it
completes normally the `while` loop executes its `break`, so control
exits the loop and resumes after it; a `Branch(l)` with `l > 0` is
re-emitted as `Branch(l-1)`; a `Branch(0)` is absorbed by
*re-entering* the loop (the next `while` iteration); `Return`, errors
and fuel exhaustion propagate. -/
theorem C1_loop_semantics (f : Nat) (fns : List Func) (body rest : List Instr)
    (st st' : St) (o : Outcome)
    (h : Machine.execute f fns body st = (o, st')) :
    Machine.execute (f + 1) fns (.loop body :: rest) st =
      match o with
      | .normal => Machine.execute f fns rest st'
      | .brk l =>
        if 0 < l then (.brk (l - 1), st')
        else Machine.execute f fns (.loop body :: rest) st'
      | .ret => (.ret, st')
      | .error m => (.error m, st')
      | .timeout => (.timeout, st') := by
  simp only [Machine.execute, h]
  cases o <;> rfl

/-- C1 (witness): a `br 1` inside the loop is re-emitted as
`Branch(0)`, instantiating the amended loop semantics. -/
theorem C1_loop_semantics_witness :
    Machine.execute 2 [] [.loop [.br 1]] st0 = (.brk 0, st0) :=
  C1_loop_semantics 1 [] [.br 1] [] st0 st0 (.brk 1) rfl

/-- C4: the program `block [loop [br 1]]` terminates normally with
the state unchanged: the `Branch(1)` raised inside the loop is not
absorbed by the loop (it is re-emitted as `Branch(0)`) and the
enclosing block absorbs `Branch(0)`, all on the first iteration. -/
theorem C4_block_loop_br1_terminates (fns : List Func) (st : St) :
    Machine.execute 5 fns [.block [.loop [.br 1]]] st = (.normal, st) :=
  rfl

/-- C6 (counterexample): type mismatches are not fatal.  First
conjunct: `add` with the Boolean `true` on top of the stack completes
normally, producing `1 + 1 = 2` by implicit coercion (the claim says
the run aborts).  Second conjunct: `br_if` with the Number `5` as its
condition treats it as true and the enclosing block absorbs the
branch, so the run completes normally (the claim says it aborts). -/
theorem C6_counterexample :
    Machine.execute 2 [] [.add] { st0 with stack := [.bool true, .num 1] } =
      (.normal, { st0 with stack := [.num 2] })
    ∧ Machine.execute 3 [] [.block [.brIf 0]]
        { st0 with stack := [.num 5] } =
      (.normal, { st0 with stack := [] }) :=
  ⟨rfl, rfl⟩

/-- C6 (amended): arithmetic on a Boolean operand does not abort: the
Boolean is implicitly coerced to 0 or 1 (Python's bool-is-int) and
execution continues; `br_if` on a Number condition does not abort: it
branches iff the number is nonzero (Python truthiness). -/
theorem C6_coercion (f : Nat) (fns : List Func) (rest : List Instr) (st : St)
    (b : Bool) (x : Int) (l : Int) (s : List Value) :
    Machine.execute (f + 1) fns (.add :: rest)
        { st with stack := .bool b :: .num x :: s } =
      Machine.execute f fns rest
        { st with stack := .num (x + if b then 1 else 0) :: s }
    ∧ Machine.execute (f + 1) fns (.brIf l :: rest)
        { st with stack := .num x :: s } =
      (if x = 0 then Machine.execute f fns rest { st with stack := s }
       else (.brk l, { st with stack := s })) := by
  constructor
  · simp [Machine.execute, toNum]
  · simp only [Machine.execute, truthy]
    rcases eq_or_ne x 0 with hx | hx <;> simp [hx]

/-- C2: a `Return` raised while executing an instruction sequence is
never absorbed by `block`/`loop`: wrapped in any tower of blocks and
loops it still produces the `ret` outcome with the same state (first
conjunct); the function-call boundary converts exactly one level of
it to normal completion of the call — for a non-returning Defined
callee the call completes normally with no result (second conjunct),
and for a returning callee it completes normally with the top of the
stack the body left as its result (third conjunct); the outcome
delivered past the boundary is `normal`, so the `Return` propagates
no further. -/
theorem C2_return_propagation (w : List Bool) (f : Nat) (fns : List Func)
    (c : List Instr) (n : Nat) (args : List Value) (st st' : St)
    (h : Machine.execute f fns c { st with locs := mkLocals args } =
      (.ret, st')) :
    Machine.execute (f + w.length) fns (wrap w c)
        { st with locs := mkLocals args } = (.ret, st')
    ∧ Machine.call (f + w.length) fns (.defined n false (wrap w c)) args st =
        (.normal, none, { st' with locs := st.locs })
    ∧ ∀ v s, st'.stack = v :: s →
        Machine.call (f + w.length) fns (.defined n true (wrap w c)) args st =
          (.normal, some v, { st' with stack := s, locs := st.locs }) := by
  have h1 : ∀ w' : List Bool,
      Machine.execute (f + w'.length) fns (wrap w' c)
        { st with locs := mkLocals args } = (.ret, st') := by
    intro w'
    induction w' with
    | nil => simpa using h
    | cons bw w' ih =>
      cases bw
      · show Machine.execute ((f + w'.length) + 1) fns [.loop (wrap w' c)]
            { st with locs := mkLocals args } = (.ret, st')
        simp only [Machine.execute, ih]
      · show Machine.execute ((f + w'.length) + 1) fns [.block (wrap w' c)]
            { st with locs := mkLocals args } = (.ret, st')
        simp only [Machine.execute, ih]
  refine ⟨h1 w, ?_, ?_⟩
  · simp [Machine.call, h1 w]
  · intro v s hs
    simp [Machine.call, h1 w, hs]

/-- C2 (witness): a bare `return` nested in a block and a loop
propagates out of both and is converted at the call boundary. -/
theorem C2_return_propagation_witness :
    Machine.execute 3 [] (wrap [true, false] [.ret])
        { st0 with locs := mkLocals [.num 5] } =
      (.ret, { st0 with locs := mkLocals [.num 5] })
    ∧ Machine.call 3 [] (.defined 1 false (wrap [true, false] [.ret]))
        [.num 5] st0 = (.normal, none, st0)
    ∧ ∀ v s, ({ st0 with locs := mkLocals [.num 5] } : St).stack = v :: s →
        Machine.call 3 [] (.defined 1 true (wrap [true, false] [.ret]))
          [.num 5] st0 = (.normal, some v, { st0 with stack := s }) :=
  C2_return_propagation [true, false] 1 [] [.ret] 1 [.num 5] st0
    { st0 with locs := mkLocals [.num 5] } rfl

/-- Concrete host callable used by the C3 witness. -/
def host0 : List Value → Value := fun _ => .num 9

/-- C3: executing `call f` for an Imported entry pops
`functions[f].nparams` values, invokes the host callable exactly once
(the invocation trace gains exactly one entry) with the popped values
in reverse pop order, i.e. in declared parameter order, and pushes
the host's result iff the entry's returns flag is true (first
conjunct); the fresh locals a Defined callee would receive bind
argument `i` to local slot `i` (second conjunct), so local slot 0 —
the first formal parameter — receives the deepest-popped value (third
conjunct). -/
theorem C3_call_protocol (f : Nat) (fns : List Func) (fi : Int) (n : Nat)
    (r : Bool) (host : List Value → Value) (rest : List Instr) (st : St)
    (popped s : List Value)
    (hf : pyGet fns fi = some (.imported n r host))
    (hs : st.stack = popped ++ s) (hn : popped.length = n) :
    Machine.execute (f + 1) fns (.call fi :: rest) st =
      Machine.execute f fns rest
        { st with
            stack := (if r then [host popped.reverse] else []) ++ s
            trace := popped.reverse :: st.trace }
    ∧ (∀ (args : List Value) (i : Nat),
        List.lookup i (mkLocals args) = args[i]?)
    ∧ List.lookup 0 (mkLocals popped.reverse) = popped.getLast? := by
  refine ⟨?_, lookup_mkLocals, ?_⟩
  · subst hn
    simp only [Machine.execute, hf, Func.nparams]
    rw [popN_append popped s st hs]
    cases r
    · simp [Machine.push]
    · simp [Machine.push]
  · rw [lookup_mkLocals, ← List.head?_reverse]
    cases popped.reverse <;> simp

/-- C3 (witness): calling import 0 with 2 parameters on the stack
`[1, 2, 3]` (top first) invokes the host once with `[2, 1]` — deepest
popped first — and pushes its result. -/
theorem C3_call_protocol_witness :
    Machine.execute 2 [.imported 2 true host0] [.call 0]
        { st0 with stack := [.num 1, .num 2, .num 3] } =
      Machine.execute 1 [.imported 2 true host0] []
        { st0 with stack := [.num 9, .num 3], trace := [[.num 2, .num 1]] }
    ∧ (∀ (args : List Value) (i : Nat),
        List.lookup i (mkLocals args) = args[i]?)
    ∧ List.lookup 0 (mkLocals ([.num 1, .num 2] : List Value).reverse) =
        ([.num 1, .num 2] : List Value).getLast? :=
  C3_call_protocol 1 [.imported 2 true host0] 0 2 true host0 []
    { st0 with stack := [.num 1, .num 2, .num 3] } [.num 1, .num 2] [.num 3]
    rfl rfl rfl

/-- C8 (counterexample): the claimed stack shape after a `call` to a
Defined function fails on the code.  First conjunct: calling a
`returns=false` function whose body is `[const 7]` leaves `[7]` on
the stack — not the empty post-argument stack the claim requires.
Second conjunct: calling a `returns=true` function whose body is
`[const 1, const 2]` leaves two new values on the stack, not exactly
one. -/
theorem C8_counterexample :
    Machine.execute 4 [.defined 0 false [.const (.num 7)]] [.call 0] st0 =
      (.normal, { st0 with stack := [.num 7] })
    ∧ Machine.execute 6 [.defined 0 true [.const (.num 1), .const (.num 2)]]
        [.call 0] st0 =
      (.normal, { st0 with stack := [.num 2, .num 1] }) :=
  ⟨rfl, rfl⟩

/-- C8 (amended): the call protocol itself adds nothing to the stack:
after a `call` to a Defined function whose body completes normally,
the operand stack is exactly the stack the body's execution left
(which equals the post-argument-consumption stack precisely when the
body has net-zero stack effect).  With `returns=false` nothing is
popped or pushed for a result; with `returns=true` the body must have
left at least one value, and the top value is popped as the result
and pushed back, so again the stack is exactly what the body left —
exactly one new value when the body's net effect is one push. -/
theorem C8_call_stack_effect (f : Nat) (fns : List Func) (fi : Int) (n : Nat)
    (code rest : List Instr) (st : St) (popped s : List Value) (stB : St)
    (hs : st.stack = popped ++ s) (hn : popped.length = n)
    (hb : Machine.execute f fns code
        { st with stack := s, locs := mkLocals popped.reverse } =
      (.normal, stB)) :
    (pyGet fns fi = some (.defined n false code) →
      Machine.execute (f + 1) fns (.call fi :: rest) st =
        Machine.execute f fns rest { stB with locs := st.locs })
    ∧ ∀ v sB, stB.stack = v :: sB →
        pyGet fns fi = some (.defined n true code) →
        Machine.execute (f + 1) fns (.call fi :: rest) st =
          Machine.execute f fns rest { stB with locs := st.locs } := by
  constructor
  · intro hf
    subst hn
    simp only [Machine.execute, hf, Func.nparams]
    rw [popN_append popped s st hs]
    simp [hb]
  · intro v sB hvB hf
    subst hn
    simp only [Machine.execute, hf, Func.nparams]
    rw [popN_append popped s st hs]
    simp [hb, hvB]

/-- C8 (witness): a call to a 1-parameter, `returns=false` function
with an empty body consumes the argument and leaves the stack the
body left (here: empty). -/
theorem C8_call_stack_effect_witness :
    (pyGet [Func.defined 1 false []] 0 = some (.defined 1 false []) →
      Machine.execute 2 [.defined 1 false []] [.call 0]
          { st0 with stack := [.num 5] } =
        Machine.execute 1 [.defined 1 false []] []
          { ({ st0 with locs := mkLocals [.num 5] } : St) with locs := st0.locs })
    ∧ ∀ v sB, ({ st0 with locs := mkLocals [.num 5] } : St).stack = v :: sB →
        pyGet [Func.defined 1 false []] 0 = some (.defined 1 true []) →
        Machine.execute 2 [.defined 1 false []] [.call 0]
            { st0 with stack := [.num 5] } =
          Machine.execute 1 [.defined 1 false []] []
            { ({ st0 with locs := mkLocals [.num 5] } : St) with locs := st0.locs } :=
  C8_call_stack_effect 1 [.defined 1 false []] 0 1 [] []
    { st0 with stack := [.num 5] } [.num 5] []
    { st0 with locs := mkLocals [.num 5] } rfl rfl rfl

/-- C9 (counterexample): a Branch that escapes a Defined function's
body does not abort the run: function 0's body is a bare `br 0` with
no enclosing block, yet the program `block [call 0]` completes
normally — the escaped `Break(0)` was absorbed by the block enclosing
the `call` in the caller's activation, exactly what the claim says
can never happen. -/
theorem C9_counterexample :
    Machine.execute 4 [.defined 0 false [.br 0]] [.block [.call 0]] st0 =
      (.normal, st0) :=
  rfl

/-- C9 (amended): a `Branch(l)` outcome that escapes a Defined
function's body entirely is not detected at the call boundary: the
`call` instruction re-emits it unchanged into the caller's activation
(first conjunct), where a `block` enclosing the `call` absorbs it
when `l = 0` and the run continues normally (second conjunct); the
run aborts only if the branch also escapes the top level. -/
theorem C9_branch_escape (f : Nat) (fns : List Func) (fi : Int) (n : Nat)
    (r : Bool) (code rest : List Instr) (st : St) (popped s : List Value)
    (stB : St) (l : Int)
    (hf : pyGet fns fi = some (.defined n r code))
    (hs : st.stack = popped ++ s) (hn : popped.length = n)
    (hb : Machine.execute f fns code
        { st with stack := s, locs := mkLocals popped.reverse } =
      (.brk l, stB)) :
    Machine.execute (f + 1) fns (.call fi :: rest) st =
      (.brk l, { stB with locs := st.locs })
    ∧ (l = 0 → ∀ rest2 : List Instr,
        Machine.execute (f + 2) fns (.block [.call fi] :: rest2) st =
          Machine.execute (f + 1) fns rest2 { stB with locs := st.locs }) := by
  have h1 : ∀ rest1 : List Instr,
      Machine.execute (f + 1) fns (.call fi :: rest1) st =
        (.brk l, { stB with locs := st.locs }) := by
    intro rest1
    subst hn
    simp only [Machine.execute, hf, Func.nparams]
    rw [popN_append popped s st hs]
    simp [hb]
  refine ⟨h1 rest, ?_⟩
  intro hl rest2
  subst hl
  show Machine.execute ((f + 1) + 1) fns (.block [.call fi] :: rest2) st = _
  rw [Machine.execute]
  rw [h1 []]
  simp

/-- C9 (witness): function 0's body is a bare `br 0`; the `call`
re-emits `Branch(0)` into the caller, and a caller-side block absorbs
it. -/
theorem C9_branch_escape_witness :
    Machine.execute 2 [.defined 0 false [.br 0]] [.call 0] st0 =
      (.brk 0, st0)
    ∧ ((0 : Int) = 0 → ∀ rest2 : List Instr,
        Machine.execute 3 [.defined 0 false [.br 0]]
            (.block [.call 0] :: rest2) st0 =
          Machine.execute 2 [.defined 0 false [.br 0]] rest2 st0) :=
  C9_branch_escape 1 [.defined 0 false [.br 0]] 0 0 false [.br 0] [] st0
    [] [] { st0 with locs := mkLocals [] } 0 rfl rfl rfl rfl

/-- C10: a `call f` whose index is out of range of the function table
(under Python semantics: `f < -len` or `f ≥ len`) fails at the table
lookup itself, before any argument is popped: the outcome is the
IndexError and the machine state — stack, memory, locals and trace —
is exactly the state before the instruction. -/
theorem C10_call_lookup_atomic (f : Nat) (fns : List Func) (fi : Int)
    (rest : List Instr) (st : St)
    (h : fi < -(fns.length : Int) ∨ (fns.length : Int) ≤ fi) :
    Machine.execute (f + 1) fns (.call fi :: rest) st =
      (.error ("list index out of range"), st) := by
  have hg : pyGet fns fi = none := by
    unfold pyGet
    split_ifs with h1 h2
    · exact List.getElem?_eq_none (by omega)
    · omega
    · rfl
  simp [Machine.execute, hg]

/-- C10 (witness): calling index 0 with an empty function table fails
with the state untouched. -/
theorem C10_call_lookup_atomic_witness :
    ((0 : Int) < -(([] : List Func).length : Int)
      ∨ (([] : List Func).length : Int) ≤ 0)
    ∧ Machine.execute 1 [] [.call 0] st0 =
        (.error ("list index out of range"), st0) :=
  ⟨Or.inr (by decide), C10_call_lookup_atomic 0 [] 0 [] st0 (Or.inr (by decide))⟩

/-- C5 (counterexample): the direct accessors do not fail on every
out-of-range address.  First conjunct: `load` at the negative address
-16 on a 16-byte memory silently succeeds (Python's negative slice
indices wrap to the start of the buffer) although the claim requires
every `addr < 0` to fail.  Second conjunct: `store` at address 16 on
a 16-byte memory — `addr + 8` exceeds the capacity — silently
succeeds and grows the buffer to 24 bytes instead of failing. -/
theorem C5_counterexample :
    Machine.load (List.replicate 16 0) (-16) = some 0
    ∧ (Machine.store (List.replicate 16 0) 16 0).length = 24 :=
  ⟨by decide, by decide⟩

/-- C5 (amended): the actual bounds behaviour of the accessors on a
memory of capacity at least 8.  `load(addr)` succeeds iff the Python
slice `memory[addr : addr+8]` holds exactly 8 bytes: for
`0 ≤ addr` iff `addr + 8 ≤ capacity` (so in-range loads succeed and
`addr + 8 > capacity` does fail), but also for every negative
`-capacity ≤ addr ≤ -9` (wrap-around), failing only for the remaining
negative addresses.  `store(addr, v)` never fails: even when
`addr + 8` exceeds the capacity it silently writes, producing a
buffer of length `min addr capacity + 8`. -/
theorem C5_memory_bounds (mem : List Nat) (addr : Int) (v : Nat)
    (h8 : 8 ≤ mem.length) :
    ((Machine.load mem addr).isSome = true ↔
      (0 ≤ addr ∧ addr + 8 ≤ (mem.length : Int))
      ∨ (-(mem.length : Int) ≤ addr ∧ addr ≤ -9))
    ∧ (0 ≤ addr → (mem.length : Int) < addr + 8 →
        ((Machine.store mem addr v).length : Int) =
          min addr (mem.length : Int) + 8) := by
  have key : (pySlice mem addr (addr + 8)).length = 8 ↔
      (0 ≤ addr ∧ addr + 8 ≤ (mem.length : Int))
      ∨ (-(mem.length : Int) ≤ addr ∧ addr ≤ -9) := by
    simp only [pySlice, List.length_take, List.length_drop, pyIndex]
    split_ifs <;> omega
  constructor
  · have hload : (Machine.load mem addr).isSome = true ↔
        (pySlice mem addr (addr + 8)).length = 8 := by
      simp only [Machine.load]
      split_ifs with hc <;> simp [hc]
    exact hload.trans key
  · intro ha hb
    have hp : (packLE v).length = 8 := by simp [packLE]
    simp only [Machine.store, pySetSlice, List.length_append, hp,
      List.length_take, List.length_drop, pyIndex]
    split_ifs <;> omega

/-- C5 (witness): on a 16-byte memory, the in-range address 12 is
exactly the boundary case `addr + 8 > capacity`, instantiating the
amended bounds theorem. -/
theorem C5_memory_bounds_witness :
    8 ≤ (List.replicate 16 0 : List Nat).length
    ∧ (((Machine.load (List.replicate 16 0) 12).isSome = true ↔
        (0 ≤ (12 : Int) ∧ 12 + 8 ≤ ((List.replicate 16 0 : List Nat).length : Int))
        ∨ (-(((List.replicate 16 0 : List Nat).length : Int)) ≤ 12
            ∧ (12 : Int) ≤ -9))
      ∧ ((0 : Int) ≤ 12 →
          ((List.replicate 16 0 : List Nat).length : Int) < 12 + 8 →
          ((Machine.store (List.replicate 16 0) 12 0).length : Int) =
            min 12 ((List.replicate 16 0 : List Nat).length : Int) + 8)) :=
  ⟨by decide, C5_memory_bounds (List.replicate 16 0) 12 0 (by decide)⟩

/-- C7: the round-trip property.  For every address with `0 ≤ addr`
and `addr + 8` within capacity and every 64-bit value, storing and
then loading at `addr` yields the value back exactly — both accessors
are defined over the same little-endian 8-byte encoding, and neither
consults anything but the byte buffer and the address. -/
theorem C7_store_load_roundtrip (mem : List Nat) (addr : Int) (v : Nat)
    (h0 : 0 ≤ addr) (h1 : addr + 8 ≤ (mem.length : Int)) (hv : v < 2 ^ 64) :
    Machine.load (Machine.store mem addr v) addr = some v := by
  obtain ⟨a, rfl⟩ : ∃ a : Nat, addr = (a : Int) :=
    ⟨addr.toNat, (Int.toNat_of_nonneg h0).symm⟩
  have han : a + 8 ≤ mem.length := by exact_mod_cast h1
  have hsidx : pyIndex mem.length ((a : Nat) : Int) = a := by
    simp only [pyIndex, Int.toNat_natCast]
    rw [if_neg (by omega)]
    omega
  have heidx : pyIndex mem.length (((a : Nat) : Int) + 8) = a + 8 := by
    have hc : ((a : Nat) : Int) + 8 = (((a + 8 : Nat)) : Int) := by push_cast; ring
    rw [hc]
    simp only [pyIndex, Int.toNat_natCast]
    rw [if_neg (by omega)]
    omega
  have hstore : Machine.store mem (a : Int) v =
      mem.take a ++ packLE v ++ mem.drop (a + 8) := by
    simp only [Machine.store, pySetSlice, hsidx, heidx]
    rw [Nat.max_eq_right (by omega)]
  have hplen : (packLE v).length = 8 := by simp [packLE]
  have hlen : (Machine.store mem (a : Int) v).length = mem.length := by
    rw [hstore]
    simp only [List.length_append, List.length_take, List.length_drop, hplen]
    omega
  have hdrop : (Machine.store mem (a : Int) v).drop a =
      packLE v ++ mem.drop (a + 8) := by
    rw [hstore, List.append_assoc]
    exact List.drop_left' (by simp [List.length_take]; omega)
  have htake : (packLE v ++ mem.drop (a + 8)).take 8 = packLE v :=
    List.take_left' hplen
  simp only [Machine.load, pySlice, hlen, hsidx, heidx]
  rw [Nat.add_sub_cancel_left, hdrop, htake, if_pos hplen,
    unpackLE_packLE v hv]

/-- C7 (witness): storing the pattern 3735928559 at address 3 of a
16-byte memory and loading it back returns it bit-identically. -/
theorem C7_store_load_roundtrip_witness :
    ((0 : Int) ≤ 3
      ∧ (3 : Int) + 8 ≤ ((List.replicate 16 0 : List Nat).length : Int)
      ∧ (3735928559 : Nat) < 2 ^ 64)
    ∧ Machine.load (Machine.store (List.replicate 16 0) 3 3735928559) 3 =
        some 3735928559 :=
  ⟨⟨by decide, by decide, by decide⟩,
    C7_store_load_roundtrip (List.replicate 16 0) 3 3735928559
      (by decide) (by decide) (by decide)⟩
